import Mathlib

/-!
Verification of the invoice-reconciliation core of `adse_navigator`.

The development shallowly embeds the TypeScript sources:

* `src/lib/invoice-parser.ts` — `parsePtDecimal`, the CUF line grammar
  (`FULL_LINE_RE`, `FULL_LINE_CHNM_RE`, `DATA_RE`, `DATA_CHNM_RE`,
  `SKIP_RE`, `SECTION_RE`, `parseCUF`) and `reconstructLines`;
* `src/app/components/RulesPanel.tsx` — `VARIABLE_PRICE_CODES` and
  `checkItems` (the reconciliation engine).

JavaScript numbers are idealised as exact rationals extended with the
non-finite values `NaN`, `Infinity` and `-Infinity` (type `JsNum`); the
string-to-number builtins `parseFloat` and `parseInt` are modelled on the
fragment of their grammar actually reachable from the embedded call sites
(optional sign, decimal digits, optional fraction; no exponent and no
`Infinity` literal, which the captured token alphabets cannot contain).
The regular expressions of the grammar are embedded by a small
backtracking matcher whose combinators mirror the JS regex constructs
used (`lazy plus`, greedy `plus`/`star`, bounded repetition, capture
groups), with the same backtracking order as the JS engine.

The catalog index (`procByCode` in the source, built from the external
`data/procedures.json`) is passed to `checkItems` as an explicit
code-to-records function, exactly as the specification describes the
reconciliation contract.
-/

/-- JS character class `\s` (also the set trimmed by `String.prototype.trim`):
tab, LF, VT, FF, CR, space, NBSP, Ogham space mark, the Unicode range
U+2000–U+200A, LS, PS, NNBSP, MMSP, ideographic space and BOM. -/
def jsWs (c : Char) : Bool :=
  c.toNat = 9 || c.toNat = 10 || c.toNat = 11 || c.toNat = 12 || c.toNat = 13 ||
  c.toNat = 32 || c.toNat = 160 || c.toNat = 5760 ||
  (0x2000 ≤ c.toNat && c.toNat ≤ 0x200A) ||
  c.toNat = 0x2028 || c.toNat = 0x2029 || c.toNat = 0x202F ||
  c.toNat = 0x205F || c.toNat = 0x3000 || c.toNat = 0xFEFF

/-- JS character class `\d`. -/
def digC (c : Char) : Bool := 48 ≤ c.toNat && c.toNat ≤ 57

/-- Character class of the monetary token pattern `[\d.,]`. -/
def valC (c : Char) : Bool := digC c || c = '.' || c = ','

/-- JS `.` (dot) class: any character except the four line terminators. -/
def dotC (c : Char) : Bool :=
  !(c.toNat = 10 || c.toNat = 13 || c.toNat = 0x2028 || c.toNat = 0x2029)

/-- Model of `String.prototype.trim`: drop leading and trailing `jsWs`. -/
def jsTrim (s : String) : String :=
  String.mk (((s.toList.dropWhile jsWs).reverse.dropWhile jsWs).reverse)

/-- Idealised JavaScript number: an exact rational, or one of the
non-finite values NaN, Infinity, -Infinity. -/
inductive JsNum where
  | num (q : ℚ)
  | nan
  | inf
  | ninf
  deriving DecidableEq, Repr

namespace JsNum

/-- JS subtraction on idealised numbers. -/
def sub : JsNum → JsNum → JsNum
  | num a, num b => num (a - b)
  | num _, inf => ninf
  | num _, ninf => inf
  | inf, num _ => inf
  | inf, ninf => inf
  | ninf, num _ => ninf
  | ninf, inf => ninf
  | _, _ => nan

/-- JS division on idealised numbers (finite dividends and divisors;
division by zero yields a signed infinity or NaN as in JS). -/
def div : JsNum → JsNum → JsNum
  | num a, num b =>
      if b = 0 then (if a > 0 then inf else if a < 0 then ninf else nan)
      else num (a / b)
  | num _, inf => num 0
  | num _, ninf => num 0
  | inf, num b => if b < 0 then ninf else inf
  | ninf, num b => if b < 0 then inf else ninf
  | _, _ => nan

/-- Multiplication by a positive rational constant (used for the scale
factor 100 in the diff rounding). -/
def mulPos (x : JsNum) (c : ℚ) : JsNum :=
  match x with
  | num q => num (q * c)
  | nan => nan
  | inf => inf
  | ninf => ninf

/-- Division by a positive rational constant. -/
def divPos (x : JsNum) (c : ℚ) : JsNum :=
  match x with
  | num q => num (q / c)
  | nan => nan
  | inf => inf
  | ninf => ninf

/-- JS `Math.round`: half-integers round toward positive infinity. -/
def round : JsNum → JsNum
  | num q => num (⌊q + 1/2⌋ : ℤ)
  | nan => nan
  | inf => inf
  | ninf => ninf

/-- JS `Math.abs`. -/
def abs : JsNum → JsNum
  | num q => num |q|
  | nan => nan
  | inf => inf
  | ninf => inf

/-- JS `<` comparison against a finite constant; any comparison with NaN
is false. -/
def ltC (x : JsNum) (c : ℚ) : Bool :=
  match x with
  | num q => q < c
  | nan => false
  | inf => false
  | ninf => true

end JsNum

/-- Value of a decimal digit string (most significant first). -/
def digitsToNat (l : List Char) : ℕ :=
  l.foldl (fun a c => a * 10 + (c.toNat - 48)) 0

/-- Longest decimal-literal prefix of a character list:
`digits [. digits]` or `. digits`; `none` when no digit is present.
This is the fragment of the ECMAScript `StrDecimalLiteral` grammar
reachable from the embedded call sites (no exponent, no `Infinity`). -/
def parseDecCore (l : List Char) : Option ℚ :=
  let ds := l.takeWhile digC
  let rest := l.drop ds.length
  if rest.head? = some '.' then
    let fs := (rest.drop 1).takeWhile digC
    if ds.isEmpty && fs.isEmpty then none
    else some ((digitsToNat ds : ℚ) + (digitsToNat fs : ℚ) / (10 : ℚ) ^ fs.length)
  else if ds.isEmpty then none else some (digitsToNat ds : ℚ)

/-- Model of JS `parseFloat` on a character list: skip leading
whitespace, optional sign, then the longest decimal-literal prefix;
NaN when no literal is found. -/
def jsParseFloat (l : List Char) : JsNum :=
  match l.dropWhile jsWs with
  | [] => .nan
  | c :: rest =>
      if c = '-' then
        match parseDecCore rest with
        | some q => .num (-q)
        | none => .nan
      else if c = '+' then
        match parseDecCore rest with
        | some q => .num q
        | none => .nan
      else
        match parseDecCore (c :: rest) with
        | some q => .num q
        | none => .nan

/-- Model of JS `parseFloat` on a string. -/
def jsParseFloatS (s : String) : JsNum := jsParseFloat s.toList

/-- Model of `s.replace(/\./g, "")`: remove every dot. -/
def removeDots (l : List Char) : List Char := l.filter (fun c => c ≠ '.')

/-- Model of `s.replace(",", ".")`: replace only the first comma. -/
def replaceFirstComma : List Char → List Char
  | [] => []
  | c :: rest => if c = ',' then '.' :: rest else c :: replaceFirstComma rest

/-- Source `parsePtDecimal` (src/lib/invoice-parser.ts:50):
`parseFloat(s.replace(/\./g, "").replace(",", "."))`. -/
def parsePtDecimal (s : String) : JsNum :=
  jsParseFloat (replaceFirstComma (removeDots s.toList))

/-- Model of JS `String(parseInt(s, 10))` (code normalisation in
`checkItems`): skip leading whitespace, optional sign, longest digit
prefix, then the decimal printing of the resulting integer; the string
`"NaN"` when no digit is found. -/
def jsCodeNorm (s : String) : String :=
  match s.toList.dropWhile jsWs with
  | [] => "NaN"
  | c :: rest =>
      if c = '-' then
        let ds := rest.takeWhile digC
        if ds.isEmpty then "NaN" else toString (-(digitsToNat ds : ℤ))
      else if c = '+' then
        let ds := rest.takeWhile digC
        if ds.isEmpty then "NaN" else toString ((digitsToNat ds : ℤ))
      else
        let ds := (c :: rest).takeWhile digC
        if ds.isEmpty then "NaN" else toString ((digitsToNat ds : ℤ))

/-- Model of JS `String.prototype.split("\n")` on the character list:
empty segments are kept, and the empty string yields one empty segment. -/
def splitOnNl : List Char → List (List Char)
  | [] => [[]]
  | c :: rest =>
      let r := splitOnNl rest
      if c = '\n' then [] :: r
      else
        match r with
        | h :: t => (c :: h) :: t
        | [] => [[c]]

/-- Model of JS `Array.prototype.join(" ")`. -/
def joinSpace : List String → String
  | [] => ""
  | h :: t => t.foldl (fun a s => a ++ " " ++ s) h

-- -------------------------------------------------------------------------
-- Backtracking regex matcher.
--
-- A matcher continuation takes the remaining input and the capture list
-- accumulated so far; a combinator of type `Matcher → Matcher` consumes a
-- prefix of the input in exactly the order the JS regex engine explores
-- candidates (greedy pieces longest-first, lazy pieces shortest-first,
-- full backtracking), then calls its continuation.
-- -------------------------------------------------------------------------

/-- Matcher continuation: remaining input and captures so far to the
captures of the first overall match, if any. -/
abbrev Matcher := List Char → List (List Char) → Option (List (List Char))

/-- Greedy `c*`: try the longest repetition first, backtracking one
character at a time. -/
def reStarG (c : Char → Bool) (k : Matcher) : Matcher
  | [], caps => k [] caps
  | ch :: rest, caps =>
    if c ch then
      match reStarG c k rest caps with
      | some r => some r
      | none => k (ch :: rest) caps
    else k (ch :: rest) caps

/-- Greedy `c+`. -/
def rePlusG (c : Char → Bool) (k : Matcher) : Matcher
  | [], _ => none
  | ch :: rest, caps => if c ch then reStarG c k rest caps else none

/-- Lazy `c*?`: try the empty repetition first, extending one character
at a time. -/
def reStarL (c : Char → Bool) (k : Matcher) : Matcher
  | s, caps =>
    match k s caps with
    | some r => some r
    | none =>
      match s with
      | [] => none
      | ch :: rest => if c ch then reStarL c k rest caps else none

/-- Lazy `c+?` (the `(.+?)` description group). -/
def rePlusL (c : Char → Bool) (k : Matcher) : Matcher
  | [], _ => none
  | ch :: rest, caps => if c ch then reStarL c k rest caps else none

/-- One character of class `c`. -/
def reChar (c : Char → Bool) (k : Matcher) : Matcher
  | [], _ => none
  | ch :: rest, caps => if c ch then k rest caps else none

/-- Exactly `n` characters of class `c` (the `\d{2}` pieces). -/
def reRep (c : Char → Bool) : ℕ → Matcher → Matcher
  | 0, k => k
  | n + 1, k => reChar c (reRep c n k)

/-- End-of-input anchor `$`. -/
def reEnd : Matcher := fun s caps => if s.isEmpty then some caps else none

/-- Capture group: record the substring consumed by the body (the input
minus the remainder the body hands to its continuation) at the end of the
capture list. -/
def reCap (m : Matcher → Matcher) (k : Matcher) : Matcher := fun s caps =>
  m (fun rest _ => k rest (caps ++ [s.take (s.length - rest.length)])) s caps

/-- Subpattern `\d+\.\d+` (the quantity token). -/
def pNum : Matcher → Matcher := fun k =>
  rePlusG digC (reChar (fun c => c = '.') (rePlusG digC k))

/-- Subpattern `\d{2}\/\d{2}\/\d{4}` (the date token). -/
def pDate : Matcher → Matcher := fun k =>
  reRep digC 2 (reChar (fun c => c = '/')
    (reRep digC 2 (reChar (fun c => c = '/') (reRep digC 4 k))))

/-- Subpattern `\d{5,}` (the CHNM drug-code token). -/
def pChnm : Matcher → Matcher := fun k => reRep digC 5 (reStarG digC k)

/-- Shared middle of all four line patterns:
`([\d.,]+)\s+(\d{2}\/\d{2}\/\d{4})\s+([\d.,]+)\s+(\d+)\s+`
(the clientValue, date, totalValue and code groups). -/
def reMid (k : Matcher) : Matcher :=
  reCap (rePlusG valC) <| rePlusG jsWs <| reCap pDate <| rePlusG jsWs <|
  reCap (rePlusG valC) <| rePlusG jsWs <| reCap (rePlusG digC) <| rePlusG jsWs <| k

/-- Shared tail of all four line patterns: `([\d.,]+)\s*$`
(the efrValue group and trailing whitespace). -/
def reTailVal : Matcher := reCap (rePlusG valC) <| reStarG jsWs <| reEnd

/-- Source `FULL_LINE_RE` (src/lib/invoice-parser.ts:61), anchored match
returning the seven capture groups:
`^(.+?)\s+(\d+\.\d+)\s+([\d.,]+)\s+(\d{2}\/\d{2}\/\d{4})\s+([\d.,]+)\s+(\d+)\s+([\d.,]+)\s*$`. -/
def FULL_match (s : List Char) : Option (List (List Char)) :=
  (reCap (rePlusL dotC) <| rePlusG jsWs <| reCap pNum <| rePlusG jsWs <|
   reMid <| reTailVal) s []

/-- Source `FULL_LINE_CHNM_RE` (src/lib/invoice-parser.ts:65), with the
extra `(\d{5,})` CHNM group before the trailing value. -/
def FULL_CHNM_match (s : List Char) : Option (List (List Char)) :=
  (reCap (rePlusL dotC) <| rePlusG jsWs <| reCap pNum <| rePlusG jsWs <|
   reMid <| reCap pChnm <| rePlusG jsWs <| reTailVal) s []

/-- Source `DATA_RE` (src/lib/invoice-parser.ts:69): a data-only line,
without the leading description group. -/
def DATA_match (s : List Char) : Option (List (List Char)) :=
  (reCap pNum <| rePlusG jsWs <| reMid <| reTailVal) s []

/-- Source `DATA_CHNM_RE` (src/lib/invoice-parser.ts:73). -/
def DATA_CHNM_match (s : List Char) : Option (List (List Char)) :=
  (reCap pNum <| rePlusG jsWs <| reMid <| reCap pChnm <| rePlusG jsWs <|
   reTailVal) s []

/-- Literal alternatives of `SKIP_RE` (src/lib/invoice-parser.ts:77);
the regex is a `^(...)`-anchored alternation of these literals, so its
test is a prefix test. -/
def skipLits : List String :=
  ["Sub-Total", "Total", "Contagem", "Hospital", "Isento", "Emitido",
   "L06C", "Morada", "Tel.", "Sede", "Capital", "Fatura", "Pág.",
   "Original", "Data de", "Nr.", "ATCUD", "Cliente", "Acto", "Unitário",
   "Qtd.", "EFR", "Pagamento", "O talão", "CONSERVE", "Convenção",
   "Em caso", "vigor", "*"]

/-- Literal alternatives of `SECTION_RE` (src/lib/invoice-parser.ts:81). -/
def sectionLits : List String :=
  ["URGÊNCIA", "SERVIÇOS", "PATOLOGIA", "ANÁLISES", "ANATOMIA", "CIRURGIA",
   "CONSULTAS", "RX ", "TAC", "ECOGRAFIA", "MEDICINA", "ESTOMATOLOGIA",
   "FARMACOS", "IMUNOHEMOTERAPIA", "ENDOSCOPIA", "CARDIOLOGIA",
   "DERMATOLOGIA", "FISIATRIA", "GASTROENTEROLOGIA", "GINECOLOGIA",
   "NEUROLOGIA", "OFTALMOLOGIA", "ORTOPEDIA", "OTORRINOLARINGOLOGIA",
   "PEDIATRIA", "PNEUMOLOGIA", "PSICOLOGIA", "PSIQUIATRIA", "RADIOLOGIA",
   "UROLOGIA", "SERVIÇOS ESPECIAIS", "RX CONVENCIONAL"]

/-- Prefix test on character lists (model of `RegExp.prototype.test` for
a start-anchored literal alternation). -/
def strHasPrefix (p s : String) : Bool := p.toList.isPrefixOf s.toList

/-- Model of `SKIP_RE.test(line)`. -/
def skipTest (line : String) : Bool := skipLits.any (fun p => strHasPrefix p line)

/-- Model of `SECTION_RE.test(line)`. -/
def sectionTest (line : String) : Bool :=
  sectionLits.any (fun p => strHasPrefix p line)

-- -------------------------------------------------------------------------
-- The CUF grammar (src/lib/invoice-parser.ts:84, `parseCUF`).
-- -------------------------------------------------------------------------

/-- Source `InvoiceItem` (src/lib/invoice-parser.ts:5). The four numeric
fields are idealised JS numbers. -/
structure InvoiceItem where
  date : String
  code : String
  description : String
  qty : JsNum
  unitValue : JsNum
  efrValue : JsNum
  clientValue : JsNum
  deriving DecidableEq, Repr

/-- Capture group `i` (0-based; group `i+1` of the JS match object) as a
string. -/
def capStr (caps : List (List Char)) (i : ℕ) : String := String.mk (caps.getD i [])

/-- Item built from a `FULL_LINE_RE` match
(groups: desc, qty, clientValue, date, totalValue, code, efrValue). -/
def mkFull (caps : List (List Char)) : InvoiceItem :=
  { date := capStr caps 3
    code := capStr caps 5
    description := jsTrim (capStr caps 0)
    qty := jsParseFloatS (capStr caps 1)
    unitValue := (parsePtDecimal (capStr caps 4)).div (jsParseFloatS (capStr caps 1))
    efrValue := parsePtDecimal (capStr caps 6)
    clientValue := parsePtDecimal (capStr caps 2) }

/-- Item built from a `FULL_LINE_CHNM_RE` match
(groups: desc, qty, clientValue, date, totalValue, code, chnm, efrValue). -/
def mkFullChnm (caps : List (List Char)) : InvoiceItem :=
  { date := capStr caps 3
    code := capStr caps 5
    description := jsTrim (capStr caps 0)
    qty := jsParseFloatS (capStr caps 1)
    unitValue := (parsePtDecimal (capStr caps 4)).div (jsParseFloatS (capStr caps 1))
    efrValue := parsePtDecimal (capStr caps 7)
    clientValue := parsePtDecimal (capStr caps 2) }

/-- Item built from a `DATA_RE` match, with the description taken from
the buffered continuation lines
(groups: qty, clientValue, date, totalValue, code, efrValue). -/
def mkData (buf : List String) (caps : List (List Char)) : InvoiceItem :=
  { date := capStr caps 2
    code := capStr caps 4
    description := jsTrim (joinSpace buf)
    qty := jsParseFloatS (capStr caps 0)
    unitValue := (parsePtDecimal (capStr caps 3)).div (jsParseFloatS (capStr caps 0))
    efrValue := parsePtDecimal (capStr caps 5)
    clientValue := parsePtDecimal (capStr caps 1) }

/-- Item built from a `DATA_CHNM_RE` match
(groups: qty, clientValue, date, totalValue, code, chnm, efrValue). -/
def mkDataChnm (buf : List String) (caps : List (List Char)) : InvoiceItem :=
  { date := capStr caps 2
    code := capStr caps 4
    description := jsTrim (joinSpace buf)
    qty := jsParseFloatS (capStr caps 0)
    unitValue := (parsePtDecimal (capStr caps 3)).div (jsParseFloatS (capStr caps 0))
    efrValue := parsePtDecimal (capStr caps 6)
    clientValue := parsePtDecimal (capStr caps 1) }

/-- Body of the `parseCUF` loop for one raw line. The state is the item
list built so far and the description buffer; every branch mirrors the
source order: trim, skip empty, the four line patterns (CHNM variants
first), the skip pattern, the section pattern, and finally buffering the
line as a description candidate. -/
def parseCUFStep (st : List InvoiceItem × List String) (raw : String) :
    List InvoiceItem × List String :=
  let line := jsTrim raw
  if line = "" then st
  else
    match FULL_CHNM_match line.toList with
    | some caps => (st.1 ++ [mkFullChnm caps], [])
    | none =>
      match FULL_match line.toList with
      | some caps => (st.1 ++ [mkFull caps], [])
      | none =>
        match DATA_CHNM_match line.toList with
        | some caps => (st.1 ++ [mkDataChnm st.2 caps], [])
        | none =>
          match DATA_match line.toList with
          | some caps => (st.1 ++ [mkData st.2 caps], [])
          | none =>
            if skipTest line then (st.1, [])
            else if sectionTest line then (st.1, [])
            else (st.1, st.2 ++ [line])

/-- Source `parseCUF` (src/lib/invoice-parser.ts:84): split the text on
newlines and run the line loop. -/
def parseCUF (text : String) : List InvoiceItem :=
  (((splitOnNl text.toList).map String.mk).foldl parseCUFStep ([], [])).1

-- -------------------------------------------------------------------------
-- Line reconstruction (src/lib/invoice-parser.ts:184, `reconstructLines`).
-- -------------------------------------------------------------------------

/-- A pdfjs text item as used by `reconstructLines`: the rendered string
and the two translation entries of its transform matrix
(`x = transform[4]`, `y = transform[5]`). -/
structure PosFrag where
  str : String
  x : ℚ
  y : ℚ
  deriving DecidableEq, Repr

/-- JS `Math.round` on an exact rational: half-integers round toward
positive infinity. -/
def jsRoundQ (q : ℚ) : ℤ := ⌊q + 1/2⌋

/-- JS `currentLine += (currentLine ? " " : "") + item.str`. -/
def joinFrag (cur s : String) : String := cur ++ (if cur = "" then "" else " ") ++ s

/-- One step of the `reconstructLines` loop. State: the previous rounded
y (null before the first item), the line being accumulated, and the
finished lines. -/
def recStep (st : Option ℤ × String × List String) (it : PosFrag) :
    Option ℤ × String × List String :=
  let y := jsRoundQ it.y
  match st.1 with
  | some cy =>
      if 2 < |y - cy| then (some y, it.str, st.2.2 ++ [st.2.1])
      else (some y, joinFrag st.2.1 it.str, st.2.2)
  | none => (some y, joinFrag st.2.1 it.str, st.2.2)

/-- Push the pending line if it is non-empty (the JS
`if (currentLine) lineTexts.push(currentLine)` epilogue). -/
def recFinish (st : Option ℤ × String × List String) : List String :=
  if st.2.1 = "" then st.2.2 else st.2.2 ++ [st.2.1]

/-- Source `reconstructLines` (src/lib/invoice-parser.ts:184). -/
def reconstructLines (items : List PosFrag) : List String :=
  recFinish (items.foldl recStep (none, "", []))

/-- The data `reconstructLines` actually reads from a fragment: its text
and its rounded y coordinate (`transform[4]` is never consulted). -/
def fragKey (it : PosFrag) : String × ℤ := (it.str, jsRoundQ it.y)

/-- Step of the loop expressed on `fragKey` data only. -/
def recStepK (st : Option ℤ × String × List String) (p : String × ℤ) :
    Option ℤ × String × List String :=
  match st.1 with
  | some cy =>
      if 2 < |p.2 - cy| then (some p.2, p.1, st.2.2 ++ [st.2.1])
      else (some p.2, joinFrag st.2.1 p.1, st.2.2)
  | none => (some p.2, joinFrag st.2.1 p.1, st.2.2)

/-- Reading of the grouping loop as a recursive specification: starting
a new line exactly when the rounded y jumps by more than 2 from the
previous fragment, joining texts in input order. -/
def linesSpecGo (cy : ℤ) (acc : String) : List (String × ℤ) → List String
  | [] => if acc = "" then [] else [acc]
  | (s, y) :: rest =>
      if 2 < |y - cy| then acc :: linesSpecGo y s rest
      else linesSpecGo y (joinFrag acc s) rest

/-- Specification-level line grouping on the projected fragment data. -/
def linesSpec : List (String × ℤ) → List String
  | [] => []
  | (s, y) :: rest => linesSpecGo y s rest

-- -------------------------------------------------------------------------
-- Reconciliation engine (src/app/components/RulesPanel.tsx:227,
-- `checkItems`).
-- -------------------------------------------------------------------------

/-- Source `Procedure` record of the catalog
(src/app/components/RulesPanel.tsx:67); monetary fields idealised as
exact rationals. -/
structure Procedure where
  code : String
  designation : String
  category : String
  categorySlug : String
  adseCharge : ℚ
  copayment : ℚ
  deriving DecidableEq, Repr

/-- The four terminal classifications of `CheckedItem.status`; the
constructors stand for the TS string literals "ok", "diff", "variable"
and "not_found". -/
inductive CheckStatus where
  | ok
  | diff
  | variablePrice
  | notFound
  deriving DecidableEq, Repr

/-- Source `CheckedItem` (src/app/components/RulesPanel.tsx:58): the
input item spread into a fresh record plus the classification fields;
`none` models an absent optional field. -/
structure CheckedItem where
  item : InvoiceItem
  status : CheckStatus
  expectedAdse : Option ℚ
  expectedCopay : Option ℚ
  adseDiff : Option JsNum
  copayDiff : Option JsNum
  category : Option String
  deriving DecidableEq, Repr

/-- Source `VARIABLE_PRICE_CODES` (src/app/components/RulesPanel.tsx:213). -/
def VARIABLE_PRICE_CODES : List String := ["6631"]

/-- Reconciliation of one item against the code-to-records index
(the body of the `items.map` in `checkItems`,
src/app/components/RulesPanel.tsx:228). The index is the `procByCode`
lookup passed explicitly; an absent key is the empty record list. -/
def checkOne (lookup : String → List Procedure) (item : InvoiceItem) : CheckedItem :=
  let codeStripped := jsCodeNorm item.code
  match lookup codeStripped with
  | [] => ⟨item, .notFound, none, none, none, none, none⟩
  | best0 :: rest =>
      if VARIABLE_PRICE_CODES.contains codeStripped then
        ⟨item, .variablePrice, none, none, none, none, some best0.category⟩
      else
        let best := ((best0 :: rest).find? fun m =>
          ((JsNum.num m.adseCharge).sub item.efrValue).abs.ltC (1/100)).getD best0
        let expectedAdse := best.adseCharge
        let expectedCopay := best.copayment
        let adseDiff := (((item.efrValue.sub (.num expectedAdse)).mulPos 100).round).divPos 100
        let copayDiff := (((item.clientValue.sub (.num expectedCopay)).mulPos 100).round).divPos 100
        if adseDiff.abs.ltC (1/100) && copayDiff.abs.ltC (1/100) then
          ⟨item, .ok, some expectedAdse, some expectedCopay, none, none, some best.category⟩
        else
          ⟨item, .diff, some expectedAdse, some expectedCopay, some adseDiff,
            some copayDiff, some best.category⟩

/-- Source `checkItems` (src/app/components/RulesPanel.tsx:227). -/
def checkItems (lookup : String → List Procedure) (items : List InvoiceItem) :
    List CheckedItem :=
  items.map (checkOne lookup)

/-- Specification-side rounding of a currency difference to two decimal
places as the code performs it: scale by 100, round half toward positive
infinity, scale back. -/
def roundHalfUp2 (q : ℚ) : ℚ := ((⌊q * 100 + 1/2⌋ : ℤ) : ℚ) / 100

-- -------------------------------------------------------------------------
-- Shape predicates for the regex soundness lemmas, and concrete inputs
-- for the witness theorems.
-- -------------------------------------------------------------------------

/-- Every character of the list satisfies the class. -/
def AllClass (c : Char → Bool) (l : List Char) : Prop := ∀ ch ∈ l, c ch

/-- Shape of a `\d+\.\d+` token: nonempty digits, a dot, nonempty digits. -/
def NumShape (l : List Char) : Prop :=
  ∃ d1 d2, l = d1 ++ '.' :: d2 ∧ d1 ≠ [] ∧ d2 ≠ [] ∧
    AllClass digC d1 ∧ AllClass digC d2

/-- Bounds every item produced by the CUF grammar satisfies: the
quantity is a number and non-negative, and the two monetary fields are
non-negative whenever they are numbers (they may be NaN). -/
def GoodItem (it : InvoiceItem) : Prop :=
  (∃ q, it.qty = JsNum.num q ∧ 0 ≤ q) ∧
  (∀ q, it.efrValue = JsNum.num q → 0 ≤ q) ∧
  (∀ q, it.clientValue = JsNum.num q → 0 ≤ q)

/-- Catalog record for the variable-price witness. -/
def procA : Procedure :=
  ⟨"6631", "PARACETAMOL 1000MG COMP", "FARMACOS", "farmacos", 5, 1⟩

/-- Singleton catalog index for the variable-price witness. -/
def lkA : String → List Procedure := fun c => if c = "6631" then [procA] else []

/-- Invoice item with a zero-padded printing of code 6631. -/
def itA : InvoiceItem :=
  ⟨"01/02/2026", "06631", "PARACETAMOL", .num 1, .num 5, .num 5, .num 1⟩

/-- Catalog record for the rounding witness (expected charge 2.00). -/
def procB : Procedure := ⟨"100", "CONSULTA", "CONSULTAS", "consultas", 2, 0⟩

/-- Singleton catalog index for the rounding witness. -/
def lkB : String → List Procedure := fun c => if c = "100" then [procB] else []

/-- Invoice item for the rounding witness: insurer paid 1.00 against an
expected 2.00, copayment 5.00 against an expected 0.00. -/
def itB : InvoiceItem :=
  ⟨"01/02/2026", "100", "CONSULTA", .num 1, .num 1, .num 1, .num 5⟩

/-- Catalog record for the rounding counterexample: expected charge
1.005, half a cent above the invoiced 1.00. -/
def procC : Procedure := ⟨"100", "CONSULTA", "CONSULTAS", "consultas", 201/200, 0⟩

/-- Singleton catalog index for the rounding counterexample. -/
def lkC : String → List Procedure := fun c => if c = "100" then [procC] else []

/-- Invoice item for the rounding counterexample. -/
def itC : InvoiceItem :=
  ⟨"01/02/2026", "100", "CONSULTA", .num 1, .num 1, .num 1, .num 5⟩

/-- A well-formed single-line CUF invoice text. -/
def tW : String := "RASTREIO 1.0 1,00 01/02/2023 1,00 123 1,00"

/-- The item `parseCUF` extracts from `tW` (the capture groups of the
full-line pattern on that line). -/
def itW : InvoiceItem :=
  mkFull ["RASTREIO".toList, "1.0".toList, "1,00".toList, "01/02/2023".toList,
          "1,00".toList, "123".toList, "1,00".toList]

-- -------------------------------------------------------------------------
-- Theorems. Helper lemmas first, then one theorem per claim (with its
-- counterexample and witness where required).
-- -------------------------------------------------------------------------

theorem strToList_mk (l : List Char) : (String.mk l).toList = l := rfl

theorem joinFrag_empty (s : String) : joinFrag "" s = s := rfl

theorem recStep_eq_key (st : Option ℤ × String × List String) (it : PosFrag) :
    recStep st it = recStepK st (fragKey it) := by
  obtain ⟨cy, cur, outs⟩ := st
  cases cy <;> rfl

theorem foldl_recStep_key (items : List PosFrag) (st : Option ℤ × String × List String) :
    items.foldl recStep st = (items.map fragKey).foldl recStepK st := by
  induction items generalizing st with
  | nil => rfl
  | cons it rest ih => simp [List.foldl_cons, recStep_eq_key, ih]

theorem reconstructLines_eq_foldK (items : List PosFrag) :
    reconstructLines items = recFinish ((items.map fragKey).foldl recStepK (none, "", [])) := by
  rw [reconstructLines, foldl_recStep_key]

theorem recFinish_foldK (l : List (String × ℤ)) :
    ∀ cy acc done, recFinish (l.foldl recStepK (some cy, acc, done)) =
      done ++ linesSpecGo cy acc l := by
  induction l with
  | nil =>
      intro cy acc done
      by_cases ha : acc = "" <;> simp [recFinish, linesSpecGo, ha]
  | cons p rest ih =>
      intro cy acc done
      obtain ⟨s, y⟩ := p
      by_cases hy : 2 < |y - cy|
      · simp [List.foldl_cons, recStepK, hy, ih, linesSpecGo]
      · simp [List.foldl_cons, recStepK, hy, ih, linesSpecGo]

/-- C1 (corrected). `reconstructLines` is not invariant under
permutations of the fragment list: swapping two fragments on different
rows swaps the produced lines. The fragments at y = 10 and y = 0 form a
permutation pair on which the outputs differ. -/
theorem reconstructLines_not_permutation_invariant :
    List.Perm [(⟨"b", 0, 10⟩ : PosFrag), ⟨"a", 0, 0⟩] [⟨"a", 0, 0⟩, ⟨"b", 0, 10⟩] ∧
    reconstructLines [⟨"b", 0, 10⟩, ⟨"a", 0, 0⟩] ≠
      reconstructLines [⟨"a", 0, 0⟩, ⟨"b", 0, 10⟩] := by
  have hy10 : jsRoundQ 10 = 10 := by norm_num [jsRoundQ]
  have hy0 : jsRoundQ 0 = 0 := by norm_num [jsRoundQ]
  constructor
  · exact List.Perm.swap _ _ _
  · have h1 : reconstructLines [(⟨"b", 0, 10⟩ : PosFrag), ⟨"a", 0, 0⟩] = ["b", "a"] := by
      simp only [reconstructLines, List.foldl_cons, List.foldl_nil, recStep, hy10, hy0]
      decide
    have h2 : reconstructLines [(⟨"a", 0, 0⟩ : PosFrag), ⟨"b", 0, 10⟩] = ["a", "b"] := by
      simp only [reconstructLines, List.foldl_cons, List.foldl_nil, recStep, hy10, hy0]
      decide
    rw [h1, h2]
    decide

/-- C1 (amended). The output of `reconstructLines` is determined by the
sequence of fragment texts paired with rounded y coordinates, in the
order the backend supplies them: two fragment lists with the same
projected sequence (in particular, differing arbitrarily in x) yield the
same lines. Order-independence does not hold (see the counterexample);
this key-determinacy is the invariance the code actually provides. -/
theorem reconstructLines_key_determined (items1 items2 : List PosFrag)
    (h : items1.map fragKey = items2.map fragKey) :
    reconstructLines items1 = reconstructLines items2 := by
  rw [reconstructLines_eq_foldK, reconstructLines_eq_foldK, h]

theorem reconstructLines_key_determined_witness :
    reconstructLines [⟨"a", 5, 0⟩] = reconstructLines [⟨"a", 7, 0⟩] :=
  reconstructLines_key_determined _ _ rfl

/-- C2 (corrected). Within one reconstructed line the fragment texts
appear in input order, not ascending-x order: the fragment at x = 100
precedes the fragment at x = 0 because it arrived first. -/
theorem reconstructLines_ignores_x_order :
    reconstructLines [⟨"p", 100, 0⟩, ⟨"q", 0, 0⟩] = ["p q"] ∧ ("p q" : String) ≠ "q p" := by
  have hy0 : jsRoundQ 0 = 0 := by norm_num [jsRoundQ]
  constructor
  · simp only [reconstructLines, List.foldl_cons, List.foldl_nil, recStep, hy0]
    decide
  · decide

/-- C2 (amended). `reconstructLines` emits lines in input order, one per
maximal run of consecutive fragments whose rounded y coordinates differ
by at most 2 from fragment to fragment; within a line the texts appear
in input order joined with single spaces (x is never consulted), and a
trailing empty line is dropped — the recursive `linesSpec` reading of
the loop. -/
theorem reconstructLines_eq_linesSpec (items : List PosFrag) :
    reconstructLines items = linesSpec (items.map fragKey) := by
  rw [reconstructLines_eq_foldK]
  cases h : items.map fragKey with
  | nil => rfl
  | cons p rest =>
      obtain ⟨s, y⟩ := p
      have h0 : recStepK (none, "", []) (s, y) = (some y, s, []) := by
        simp [recStepK, joinFrag_empty]
      simp only [List.foldl_cons, linesSpec]
      rw [h0, recFinish_foldK]
      simp

/-- C4 (counterexample). The decimal normalizer truncates a
space-thousands input at the space: `"3 150,00"` parses to 3, which is
not the claimed 3150.00. -/
theorem parsePtDecimal_space_truncates :
    parsePtDecimal "3 150,00" = JsNum.num 3 ∧ (3 : ℚ) ≠ 3150 := by
  constructor
  · have h : parsePtDecimal "3 150,00" = JsNum.num ((3 : ℕ) : ℚ) := rfl
    rw [h]
    norm_num
  · norm_num

/-- C4 (amended). `parsePtDecimal` maps `"1.234,56"` to 1234.56 and
`"3150,00"` to 3150.00, but the space-thousands form `"3 150,00"`
parses to 3: `parseFloat` stops at the space, so space-separated
thousands are not supported. -/
theorem parsePtDecimal_values :
    parsePtDecimal "1.234,56" = JsNum.num (123456 / 100) ∧
    parsePtDecimal "3150,00" = JsNum.num 3150 ∧
    parsePtDecimal "3 150,00" = JsNum.num 3 := by
  refine ⟨?_, ?_, ?_⟩
  · have h : parsePtDecimal "1.234,56" =
        JsNum.num (((1234 : ℕ) : ℚ) + ((56 : ℕ) : ℚ) / (10 : ℚ) ^ (2 : ℕ)) := rfl
    rw [h]
    norm_num
  · have h : parsePtDecimal "3150,00" =
        JsNum.num (((3150 : ℕ) : ℚ) + ((0 : ℕ) : ℚ) / (10 : ℚ) ^ (2 : ℕ)) := rfl
    rw [h]
    norm_num
  · have h : parsePtDecimal "3 150,00" = JsNum.num ((3 : ℕ) : ℚ) := rfl
    rw [h]
    norm_num

theorem checkOne_item (lookup : String → List Procedure) (it : InvoiceItem) :
    (checkOne lookup it).item = it := by
  simp only [checkOne]
  split
  · rfl
  · split
    · rfl
    · split <;> rfl

/-- C3 (confirmed). Reconciliation returns exactly one `CheckedItem` per
input item, in input order, each carrying its input item unchanged:
mapping the embedded-item projection over `checkItems` gives back the
input list, so no item is dropped, merged or reordered. -/
theorem checkItems_preserves_items (lookup : String → List Procedure)
    (items : List InvoiceItem) :
    (checkItems lookup items).map CheckedItem.item = items := by
  induction items with
  | nil => rfl
  | cons it rest ih =>
      show ((checkOne lookup it) :: checkItems lookup rest).map CheckedItem.item =
        it :: rest
      simp only [List.map_cons, checkOne_item]
      exact congrArg (it :: ·) ih

/-- C6 (confirmed). An item whose code normalises to the variable-price
code 6631 (any zero-padded printing), when the catalog index has records
for 6631, is classified `variable` with the category of the first
matching record and no expected or diff fields, at any position in the
item list. -/
theorem checkItems_variable_code (lookup : String → List Procedure)
    (it : InvoiceItem) (pre post : List InvoiceItem) (p : Procedure)
    (l : List Procedure)
    (hcode : jsCodeNorm it.code = "6631") (hlook : lookup "6631" = p :: l) :
    checkItems lookup (pre ++ it :: post) =
      checkItems lookup pre ++
        ⟨it, .variablePrice, none, none, none, none, some p.category⟩ ::
          checkItems lookup post := by
  have hco : checkOne lookup it =
      ⟨it, .variablePrice, none, none, none, none, some p.category⟩ := by
    simp only [checkOne, hcode, hlook]
    simp [VARIABLE_PRICE_CODES]
  simp only [checkItems, List.map_append, List.map_cons, hco]

theorem checkItems_variable_code_witness :
    checkItems lkA ([] ++ itA :: []) =
      checkItems lkA [] ++
        (⟨itA, .variablePrice, none, none, none, none, some procA.category⟩ :
          CheckedItem) :: checkItems lkA [] :=
  checkItems_variable_code lkA itA [] [] procA [] (by decide) rfl

theorem checkOne_cases (lookup : String → List Procedure) (it : InvoiceItem) :
    (checkOne lookup it).adseDiff = none ∧ (checkOne lookup it).copayDiff = none ∨
    ∃ best : Procedure, checkOne lookup it =
      ⟨it, .diff, some best.adseCharge, some best.copayment,
        some (((it.efrValue.sub (.num best.adseCharge)).mulPos 100).round.divPos 100),
        some (((it.clientValue.sub (.num best.copayment)).mulPos 100).round.divPos 100),
        some best.category⟩ := by
  simp only [checkOne]
  split
  · exact Or.inl ⟨rfl, rfl⟩
  · split
    · exact Or.inl ⟨rfl, rfl⟩
    · split
      · exact Or.inl ⟨rfl, rfl⟩
      · exact Or.inr ⟨_, rfl⟩

/-- C7 (amended). The diff fields carried by a `CheckedItem` are the
exact differences (invoiced minus expected) rounded at the cent boundary
with JS `Math.round` semantics, i.e. round-half-up (ties toward positive
infinity), not round-half-away-from-zero: whenever `adseDiff` or
`copayDiff` is present and the corresponding invoiced value is numeric,
it equals `roundHalfUp2` of the exact difference; in particular a
difference of exactly minus half a cent rounds to 0.00 (not -0.01) and
plus half a cent rounds to +0.01. -/
theorem checkItems_diff_rounding (lookup : String → List Procedure)
    (items : List InvoiceItem) (ci : CheckedItem)
    (hci : ci ∈ checkItems lookup items) :
    (∀ e r d, ci.item.efrValue = JsNum.num e → ci.expectedAdse = some r →
        ci.adseDiff = some d → d = JsNum.num (roundHalfUp2 (e - r))) ∧
    (∀ c r d, ci.item.clientValue = JsNum.num c → ci.expectedCopay = some r →
        ci.copayDiff = some d → d = JsNum.num (roundHalfUp2 (c - r))) ∧
    roundHalfUp2 (-(1/200)) = 0 ∧ roundHalfUp2 (1/200) = 1/100 := by
  obtain ⟨it, hit, hco⟩ := List.mem_map.mp hci
  refine ⟨?_, ?_, ?_, ?_⟩
  · intro e r d he hr hd
    rcases checkOne_cases lookup it with ⟨ha, _⟩ | ⟨best, hb⟩
    · rw [← hco, ha] at hd
      cases hd
    · rw [← hco, hb] at he hr hd
      simp only at he hr hd
      obtain rfl := Option.some.inj hr
      obtain rfl := (Option.some.inj hd).symm
      simp [he, JsNum.sub, JsNum.mulPos, JsNum.round, JsNum.divPos, roundHalfUp2]
  · intro c r d hc hr hd
    rcases checkOne_cases lookup it with ⟨_, ha⟩ | ⟨best, hb⟩
    · rw [← hco, ha] at hd
      cases hd
    · rw [← hco, hb] at hc hr hd
      simp only at hc hr hd
      obtain rfl := Option.some.inj hr
      obtain rfl := (Option.some.inj hd).symm
      simp [hc, JsNum.sub, JsNum.mulPos, JsNum.round, JsNum.divPos, roundHalfUp2]
  · norm_num [roundHalfUp2]
  · norm_num [roundHalfUp2]

/-- C7 (counterexample). With an expected charge of 1.005 and an
invoiced 1.00, the exact ADSE difference is exactly minus half a cent;
the code's `Math.round` sends it to 0.00, not the claimed -0.01. -/
theorem checkItems_neg_half_cent_rounds_to_zero :
    (checkItems lkC [itC]).map CheckedItem.adseDiff = [some (JsNum.num 0)] ∧
    (JsNum.num 0 : JsNum) ≠ JsNum.num (-(1/100)) := by
  constructor
  · have h1 : jsCodeNorm itC.code = "100" := rfl
    have h2 : lkC "100" = [procC] := rfl
    have h3 : VARIABLE_PRICE_CODES.contains "100" = false := by decide
    have h120 : |(1:ℚ)/200| = 1/200 := abs_of_nonneg (by norm_num)
    have hp : ((JsNum.num procC.adseCharge).sub itC.efrValue).abs.ltC (1/100) = true := by
      simp only [procC, itC, JsNum.sub, JsNum.abs, JsNum.ltC, decide_eq_true_eq]
      rw [show (201:ℚ)/200 - 1 = 1/200 by norm_num, h120]
      norm_num
    have hfind : List.find?
        (fun m => ((JsNum.num m.adseCharge).sub itC.efrValue).abs.ltC (1/100)) [procC] =
        some procC := List.find?_cons_of_pos _ hp
    have hd1 : ((itC.efrValue.sub (JsNum.num procC.adseCharge)).mulPos 100).round.divPos 100 =
        JsNum.num 0 := by
      simp only [itC, procC, JsNum.sub, JsNum.mulPos, JsNum.round, JsNum.divPos,
        JsNum.num.injEq]
      norm_num
    have hd2 : ((itC.clientValue.sub (JsNum.num procC.copayment)).mulPos 100).round.divPos 100 =
        JsNum.num 5 := by
      simp only [itC, procC, JsNum.sub, JsNum.mulPos, JsNum.round, JsNum.divPos,
        JsNum.num.injEq]
      norm_num
    have habs5 : |(5:ℚ)| = 5 := abs_of_nonneg (by norm_num)
    have hcond : ((JsNum.num 0).abs.ltC (1/100) && (JsNum.num 5).abs.ltC (1/100)) = false := by
      simp only [JsNum.abs, JsNum.ltC, abs_zero, habs5]
      rw [decide_eq_false (by norm_num : ¬((5:ℚ) < 1/100)), Bool.and_false]
    have hco : checkOne lkC itC = ⟨itC, .diff, some (201/200), some 0,
        some (JsNum.num 0), some (JsNum.num 5), some "CONSULTAS"⟩ := by
      simp only [checkOne, h1, h2, h3, Bool.false_eq_true, if_false]
      rw [hfind]
      simp only [Option.getD_some]
      rw [hd1, hd2, hcond]
      rw [if_neg Bool.false_ne_true]
      rfl
    simp [checkItems, hco]
  · intro h
    have := JsNum.num.inj h
    norm_num at this

theorem checkItems_diff_rounding_witness :
    (checkOne lkB itB).adseDiff = some (JsNum.num (roundHalfUp2 (1 - 2))) := by
  have hp : ((JsNum.num procB.adseCharge).sub itB.efrValue).abs.ltC (1/100) = false := by
    simp only [procB, itB, JsNum.sub, JsNum.abs, JsNum.ltC]
    rw [show (2:ℚ) - 1 = 1 by norm_num, abs_one,
      decide_eq_false (by norm_num : ¬((1:ℚ) < 1/100))]
  have hfind : List.find?
      (fun m => ((JsNum.num m.adseCharge).sub itB.efrValue).abs.ltC (1/100)) [procB] =
      none := by
    rw [List.find?_cons_of_neg _ (by rw [hp]; exact Bool.false_ne_true), List.find?_nil]
  have hd1 : ((itB.efrValue.sub (JsNum.num procB.adseCharge)).mulPos 100).round.divPos 100 =
      JsNum.num (-1) := by
    simp only [itB, procB, JsNum.sub, JsNum.mulPos, JsNum.round, JsNum.divPos,
      JsNum.num.injEq]
    norm_num
  have hd2 : ((itB.clientValue.sub (JsNum.num procB.copayment)).mulPos 100).round.divPos 100 =
      JsNum.num 5 := by
    simp only [itB, procB, JsNum.sub, JsNum.mulPos, JsNum.round, JsNum.divPos,
      JsNum.num.injEq]
    norm_num
  have habs5 : |(5:ℚ)| = 5 := abs_of_nonneg (by norm_num)
  have hcond : ((JsNum.num (-1)).abs.ltC (1/100) && (JsNum.num 5).abs.ltC (1/100)) = false := by
    simp only [JsNum.abs, JsNum.ltC, abs_neg, abs_one, habs5]
    rw [decide_eq_false (by norm_num : ¬((1:ℚ) < 1/100)), Bool.false_and]
  have hco : checkOne lkB itB = ⟨itB, .diff, some 2, some 0,
      some (JsNum.num (-1)), some (JsNum.num 5), some "CONSULTAS"⟩ := by
    have h1 : jsCodeNorm itB.code = "100" := rfl
    have h2 : lkB "100" = [procB] := rfl
    have h3 : VARIABLE_PRICE_CODES.contains "100" = false := by decide
    simp only [checkOne, h1, h2, h3, Bool.false_eq_true, if_false]
    rw [hfind]
    simp only [Option.getD_none]
    rw [hd1, hd2, hcond]
    rw [if_neg Bool.false_ne_true]
    rfl
  have hmem : checkOne lkB itB ∈ checkItems lkB [itB] := List.Mem.head _
  have h := (checkItems_diff_rounding lkB [itB] (checkOne lkB itB) hmem).1 1 2
      (JsNum.num (-1)) (by rw [hco]; rfl) (by rw [hco]) (by rw [hco])
  rw [hco]
  exact congrArg some h

/-- C9 (confirmed). When the trimmed line is non-empty, matches none of
the four data patterns, and matches the discard pattern (a
section-boundary line such as a subtotal or total), one step of the
`parseCUF` loop clears the description buffer and produces no item: the
buffered continuation text is dropped entirely. -/
theorem parseCUF_skip_discards_buffer (items : List InvoiceItem) (buf : List String)
    (raw : String)
    (hne : jsTrim raw ≠ "")
    (h1 : FULL_CHNM_match (jsTrim raw).toList = none)
    (h2 : FULL_match (jsTrim raw).toList = none)
    (h3 : DATA_CHNM_match (jsTrim raw).toList = none)
    (h4 : DATA_match (jsTrim raw).toList = none)
    (h5 : skipTest (jsTrim raw) = true) :
    parseCUFStep (items, buf) raw = (items, []) := by
  simp only [parseCUFStep, h1, h2, h3, h4, h5, eq_self_iff_true, if_true]
  simp [hne]

theorem parseCUF_skip_discards_buffer_witness :
    parseCUFStep ([], ["HEMOGRAMA COM"]) "Sub-Total 123,45" = ([], []) :=
  parseCUF_skip_discards_buffer [] ["HEMOGRAMA COM"] "Sub-Total 123,45"
    (by decide) (by decide) (by decide) (by decide) (by decide) (by decide)

theorem reStarG_sound (c : Char → Bool) (k : Matcher) :
    ∀ (s : List Char) (caps r : List (List Char)),
      reStarG c k s caps = some r →
      ∃ a b, s = a ++ b ∧ AllClass c a ∧ k b caps = some r := by
  intro s
  induction s with
  | nil =>
      intro caps r h
      exact ⟨[], [], rfl, by simp [AllClass], h⟩
  | cons ch rest ih =>
      intro caps r h
      simp only [reStarG] at h
      split at h
      · split at h
        · rename_i hc r0 heq
          obtain rfl := Option.some.inj h
          obtain ⟨a, b, hs, hall, hk⟩ := ih caps r0 heq
          refine ⟨ch :: a, b, by simp [hs], ?_, hk⟩
          intro x hx
          rcases List.mem_cons.mp hx with rfl | hx
          · assumption
          · exact hall x hx
        · exact ⟨[], ch :: rest, rfl, by simp [AllClass], h⟩
      · exact ⟨[], ch :: rest, rfl, by simp [AllClass], h⟩

theorem rePlusG_sound (c : Char → Bool) (k : Matcher) (s : List Char)
    (caps r : List (List Char)) (h : rePlusG c k s caps = some r) :
    ∃ a b, s = a ++ b ∧ a ≠ [] ∧ AllClass c a ∧ k b caps = some r := by
  cases s with
  | nil => exact Option.noConfusion h
  | cons ch rest =>
      simp only [rePlusG] at h
      split at h
      · rename_i hc
        obtain ⟨a, b, hs, hall, hk⟩ := reStarG_sound c k rest caps r h
        refine ⟨ch :: a, b, by simp [hs], by simp, ?_, hk⟩
        intro x hx
        rcases List.mem_cons.mp hx with rfl | hx
        · exact hc
        · exact hall x hx
      · exact Option.noConfusion h

theorem rePlusG_sound_weak (c : Char → Bool) (k : Matcher) (s : List Char)
    (caps r : List (List Char)) (h : rePlusG c k s caps = some r) :
    ∃ a b, s = a ++ b ∧ AllClass c a ∧ k b caps = some r := by
  obtain ⟨a, b, hs, _, hall, hk⟩ := rePlusG_sound c k s caps r h
  exact ⟨a, b, hs, hall, hk⟩

theorem reStarL_sound (c : Char → Bool) (k : Matcher) :
    ∀ (s : List Char) (caps r : List (List Char)),
      reStarL c k s caps = some r →
      ∃ a b, s = a ++ b ∧ AllClass c a ∧ k b caps = some r := by
  intro s
  induction s with
  | nil =>
      intro caps r h
      simp only [reStarL] at h
      split at h
      · rename_i r0 heq
        obtain rfl := Option.some.inj h
        exact ⟨[], [], rfl, by simp [AllClass], heq⟩
      · exact Option.noConfusion h
  | cons ch rest ih =>
      intro caps r h
      simp only [reStarL] at h
      split at h
      · rename_i r0 heq
        obtain rfl := Option.some.inj h
        exact ⟨[], ch :: rest, rfl, by simp [AllClass], heq⟩
      · split at h
        · rename_i hc
          obtain ⟨a, b, hs, hall, hk⟩ := ih caps r h
          refine ⟨ch :: a, b, by simp [hs], ?_, hk⟩
          intro x hx
          rcases List.mem_cons.mp hx with rfl | hx
          · exact hc
          · exact hall x hx
        · exact Option.noConfusion h

theorem rePlusL_sound (c : Char → Bool) (k : Matcher) (s : List Char)
    (caps r : List (List Char)) (h : rePlusL c k s caps = some r) :
    ∃ a b, s = a ++ b ∧ AllClass c a ∧ k b caps = some r := by
  cases s with
  | nil => exact Option.noConfusion h
  | cons ch rest =>
      simp only [rePlusL] at h
      split at h
      · rename_i hc
        obtain ⟨a, b, hs, hall, hk⟩ := reStarL_sound c k rest caps r h
        refine ⟨ch :: a, b, by simp [hs], ?_, hk⟩
        intro x hx
        rcases List.mem_cons.mp hx with rfl | hx
        · exact hc
        · exact hall x hx
      · exact Option.noConfusion h

theorem rePlusL_sound_triv (c : Char → Bool) (k : Matcher) (s : List Char)
    (caps r : List (List Char)) (h : rePlusL c k s caps = some r) :
    ∃ a b, s = a ++ b ∧ True ∧ k b caps = some r := by
  obtain ⟨a, b, hs, _, hk⟩ := rePlusL_sound c k s caps r h
  exact ⟨a, b, hs, trivial, hk⟩

theorem reChar_sound (c : Char → Bool) (k : Matcher) (s : List Char)
    (caps r : List (List Char)) (h : reChar c k s caps = some r) :
    ∃ ch b, s = ch :: b ∧ c ch = true ∧ k b caps = some r := by
  cases s with
  | nil => exact Option.noConfusion h
  | cons ch rest =>
      simp only [reChar] at h
      split at h
      · rename_i hc
        exact ⟨ch, rest, rfl, hc, h⟩
      · exact Option.noConfusion h

theorem reRep_sound (c : Char → Bool) :
    ∀ (n : ℕ) (k : Matcher) (s : List Char) (caps r : List (List Char)),
      reRep c n k s caps = some r →
      ∃ a b, s = a ++ b ∧ a.length = n ∧ AllClass c a ∧ k b caps = some r := by
  intro n
  induction n with
  | zero =>
      intro k s caps r h
      exact ⟨[], s, rfl, rfl, by simp [AllClass], h⟩
  | succ m ih =>
      intro k s caps r h
      obtain ⟨ch, b, hs, hc, hk⟩ := reChar_sound c (reRep c m k) s caps r h
      obtain ⟨a2, b2, hb, hlen, hall, hk2⟩ := ih k b caps r hk
      refine ⟨ch :: a2, b2, by simp [hs, hb], by simp [hlen], ?_, hk2⟩
      intro x hx
      rcases List.mem_cons.mp hx with rfl | hx
      · exact hc
      · exact hall x hx

theorem reEnd_sound (s : List Char) (caps r : List (List Char))
    (h : reEnd s caps = some r) : s = [] ∧ r = caps := by
  cases s with
  | nil => exact ⟨rfl, (Option.some.inj h).symm⟩
  | cons ch rest => exact Option.noConfusion h

theorem reCap_sound (m : Matcher → Matcher) (P : List Char → Prop)
    (hm : ∀ (k : Matcher) (s : List Char) (caps r : List (List Char)),
      m k s caps = some r → ∃ a b, s = a ++ b ∧ P a ∧ k b caps = some r)
    (k : Matcher) (s : List Char) (caps r : List (List Char))
    (h : reCap m k s caps = some r) :
    ∃ a b, s = a ++ b ∧ P a ∧ k b (caps ++ [a]) = some r := by
  simp only [reCap] at h
  obtain ⟨a, b, hs, hp, hk⟩ := hm _ s caps r h
  refine ⟨a, b, hs, hp, ?_⟩
  subst hs
  have ht : (a ++ b).take ((a ++ b).length - b.length) = a := by
    rw [List.length_append, Nat.add_sub_cancel]
    exact List.take_left a b
  rwa [ht] at hk

theorem pNum_sound (k : Matcher) (s : List Char) (caps r : List (List Char))
    (h : pNum k s caps = some r) :
    ∃ a b, s = a ++ b ∧ NumShape a ∧ k b caps = some r := by
  obtain ⟨d1, b1, hs1, hne1, hd1, hk1⟩ := rePlusG_sound digC _ s caps r h
  obtain ⟨ch, b2, hs2, hdot, hk2⟩ := reChar_sound _ _ b1 caps r hk1
  obtain rfl : ch = '.' := by simpa using hdot
  obtain ⟨d2, b3, hs3, hne2, hd2, hk3⟩ := rePlusG_sound digC k b2 caps r hk2
  refine ⟨d1 ++ '.' :: d2, b3, ?_, ⟨d1, d2, rfl, hne1, hne2, hd1, hd2⟩, hk3⟩
  rw [hs1, hs2, hs3]
  simp

theorem pDate_sound (k : Matcher) (s : List Char) (caps r : List (List Char))
    (h : pDate k s caps = some r) :
    ∃ a b, s = a ++ b ∧ True ∧ k b caps = some r := by
  obtain ⟨a1, b1, hs1, _, _, hk1⟩ := reRep_sound digC 2 _ s caps r h
  obtain ⟨c1, b2, hs2, _, hk2⟩ := reChar_sound _ _ b1 caps r hk1
  obtain ⟨a2, b3, hs3, _, _, hk3⟩ := reRep_sound digC 2 _ b2 caps r hk2
  obtain ⟨c2, b4, hs4, _, hk4⟩ := reChar_sound _ _ b3 caps r hk3
  obtain ⟨a3, b5, hs5, _, _, hk5⟩ := reRep_sound digC 4 k b4 caps r hk4
  refine ⟨a1 ++ c1 :: a2 ++ c2 :: a3, b5, ?_, trivial, hk5⟩
  rw [hs1, hs2, hs3, hs4, hs5]
  simp

theorem pChnm_sound (k : Matcher) (s : List Char) (caps r : List (List Char))
    (h : pChnm k s caps = some r) :
    ∃ a b, s = a ++ b ∧ True ∧ k b caps = some r := by
  obtain ⟨a1, b1, hs1, _, _, hk1⟩ := reRep_sound digC 5 _ s caps r h
  obtain ⟨a2, b2, hs2, _, hk2⟩ := reStarG_sound digC k b1 caps r hk1
  refine ⟨a1 ++ a2, b2, ?_, trivial, hk2⟩
  rw [hs1, hs2]
  simp

theorem reMid_sound (k : Matcher) (s : List Char) (caps r : List (List Char))
    (h : reMid k s caps = some r) :
    ∃ g1 g2 g3 g4 b, AllClass valC g1 ∧ AllClass valC g3 ∧
      k b (caps ++ [g1, g2, g3, g4]) = some r := by
  obtain ⟨g1, b1, _, hv1, h1⟩ :=
    reCap_sound (rePlusG valC) (AllClass valC) (rePlusG_sound_weak valC) _ s caps r h
  obtain ⟨_, b2, _, _, h2⟩ := rePlusG_sound_weak jsWs _ b1 _ r h1
  obtain ⟨g2, b3, _, _, h3⟩ :=
    reCap_sound pDate (fun _ => True) pDate_sound _ b2 _ r h2
  obtain ⟨_, b4, _, _, h4⟩ := rePlusG_sound_weak jsWs _ b3 _ r h3
  obtain ⟨g3, b5, _, hv3, h5⟩ :=
    reCap_sound (rePlusG valC) (AllClass valC) (rePlusG_sound_weak valC) _ b4 _ r h4
  obtain ⟨_, b6, _, _, h6⟩ := rePlusG_sound_weak jsWs _ b5 _ r h5
  obtain ⟨g4, b7, _, _, h7⟩ :=
    reCap_sound (rePlusG digC) (fun _ => True)
      (fun k s caps r h => by
        obtain ⟨a, b, hs, _, hk⟩ := rePlusG_sound_weak digC k s caps r h
        exact ⟨a, b, hs, trivial, hk⟩) _ b6 _ r h6
  obtain ⟨_, b8, _, _, h8⟩ := rePlusG_sound_weak jsWs _ b7 _ r h7
  refine ⟨g1, g2, g3, g4, b8, hv1, hv3, ?_⟩
  simpa [List.append_assoc] using h8

theorem reTailVal_sound (s : List Char) (caps r : List (List Char))
    (h : reTailVal s caps = some r) :
    ∃ g, AllClass valC g ∧ g ≠ [] ∧ r = caps ++ [g] := by
  obtain ⟨g, b1, _, ⟨hne, hall⟩, h1⟩ :=
    reCap_sound (rePlusG valC) (fun a => a ≠ [] ∧ AllClass valC a)
      (fun k s caps r h => by
        obtain ⟨a, b, hs, hne, hall, hk⟩ := rePlusG_sound valC k s caps r h
        exact ⟨a, b, hs, ⟨hne, hall⟩, hk⟩) _ s caps r h
  obtain ⟨a2, b2, _, _, h2⟩ := reStarG_sound jsWs reEnd b1 _ r h1
  obtain ⟨_, hr⟩ := reEnd_sound b2 _ r h2
  exact ⟨g, hall, hne, hr⟩

theorem FULL_match_sound (s : List Char) (caps0 : List (List Char))
    (h : FULL_match s = some caps0) :
    ∃ g1 g2 g3 g4 g5 g6 g7, caps0 = [g1, g2, g3, g4, g5, g6, g7] ∧
      NumShape g2 ∧ AllClass valC g3 ∧ AllClass valC g7 := by
  obtain ⟨g1, b1, _, _, h1⟩ :=
    reCap_sound (rePlusL dotC) (fun _ => True) (rePlusL_sound_triv dotC) _ s [] caps0 h
  obtain ⟨_, b2, _, _, h2⟩ := rePlusG_sound_weak jsWs _ b1 _ caps0 h1
  obtain ⟨g2, b3, _, hnum, h3⟩ := reCap_sound pNum NumShape pNum_sound _ b2 _ caps0 h2
  obtain ⟨_, b4, _, _, h4⟩ := rePlusG_sound_weak jsWs _ b3 _ caps0 h3
  obtain ⟨g3, g4, g5, g6, b5, hv3, hv5, h5⟩ := reMid_sound reTailVal b4 _ caps0 h4
  obtain ⟨g7, hv7, _, hr⟩ := reTailVal_sound b5 _ caps0 h5
  refine ⟨g1, g2, g3, g4, g5, g6, g7, ?_, hnum, hv3, hv7⟩
  rw [hr]
  simp

theorem FULL_CHNM_match_sound (s : List Char) (caps0 : List (List Char))
    (h : FULL_CHNM_match s = some caps0) :
    ∃ g1 g2 g3 g4 g5 g6 g7 g8, caps0 = [g1, g2, g3, g4, g5, g6, g7, g8] ∧
      NumShape g2 ∧ AllClass valC g3 ∧ AllClass valC g8 := by
  obtain ⟨g1, b1, _, _, h1⟩ :=
    reCap_sound (rePlusL dotC) (fun _ => True) (rePlusL_sound_triv dotC) _ s [] caps0 h
  obtain ⟨_, b2, _, _, h2⟩ := rePlusG_sound_weak jsWs _ b1 _ caps0 h1
  obtain ⟨g2, b3, _, hnum, h3⟩ := reCap_sound pNum NumShape pNum_sound _ b2 _ caps0 h2
  obtain ⟨_, b4, _, _, h4⟩ := rePlusG_sound_weak jsWs _ b3 _ caps0 h3
  obtain ⟨g3, g4, g5, g6, b5, hv3, hv5, h5⟩ := reMid_sound _ b4 _ caps0 h4
  obtain ⟨g7, b6, _, _, h6⟩ :=
    reCap_sound pChnm (fun _ => True) pChnm_sound _ b5 _ caps0 h5
  obtain ⟨_, b7, _, _, h7⟩ := rePlusG_sound_weak jsWs _ b6 _ caps0 h6
  obtain ⟨g8, hv8, _, hr⟩ := reTailVal_sound b7 _ caps0 h7
  refine ⟨g1, g2, g3, g4, g5, g6, g7, g8, ?_, hnum, hv3, hv8⟩
  rw [hr]
  simp

theorem DATA_match_sound (s : List Char) (caps0 : List (List Char))
    (h : DATA_match s = some caps0) :
    ∃ g1 g2 g3 g4 g5 g6, caps0 = [g1, g2, g3, g4, g5, g6] ∧
      NumShape g1 ∧ AllClass valC g2 ∧ AllClass valC g6 := by
  obtain ⟨g1, b1, _, hnum, h1⟩ := reCap_sound pNum NumShape pNum_sound _ s [] caps0 h
  obtain ⟨_, b2, _, _, h2⟩ := rePlusG_sound_weak jsWs _ b1 _ caps0 h1
  obtain ⟨g2, g3, g4, g5, b3, hv2, hv4, h3⟩ := reMid_sound reTailVal b2 _ caps0 h2
  obtain ⟨g6, hv6, _, hr⟩ := reTailVal_sound b3 _ caps0 h3
  refine ⟨g1, g2, g3, g4, g5, g6, ?_, hnum, hv2, hv6⟩
  rw [hr]
  simp

theorem DATA_CHNM_match_sound (s : List Char) (caps0 : List (List Char))
    (h : DATA_CHNM_match s = some caps0) :
    ∃ g1 g2 g3 g4 g5 g6 g7, caps0 = [g1, g2, g3, g4, g5, g6, g7] ∧
      NumShape g1 ∧ AllClass valC g2 ∧ AllClass valC g7 := by
  obtain ⟨g1, b1, _, hnum, h1⟩ := reCap_sound pNum NumShape pNum_sound _ s [] caps0 h
  obtain ⟨_, b2, _, _, h2⟩ := rePlusG_sound_weak jsWs _ b1 _ caps0 h1
  obtain ⟨g2, g3, g4, g5, b3, hv2, hv4, h3⟩ := reMid_sound _ b2 _ caps0 h2
  obtain ⟨g6, b4, _, _, h4⟩ :=
    reCap_sound pChnm (fun _ => True) pChnm_sound _ b3 _ caps0 h3
  obtain ⟨_, b5, _, _, h5⟩ := rePlusG_sound_weak jsWs _ b4 _ caps0 h4
  obtain ⟨g7, hv7, _, hr⟩ := reTailVal_sound b5 _ caps0 h5
  refine ⟨g1, g2, g3, g4, g5, g6, g7, ?_, hnum, hv2, hv7⟩
  rw [hr]
  simp

theorem valC_not_ws (c : Char) (h : valC c = true) : jsWs c = false := by
  cases hw : jsWs c with
  | false => rfl
  | true =>
      exfalso
      simp only [valC, digC, Bool.or_eq_true, Bool.and_eq_true, decide_eq_true_eq] at h
      rcases h with (⟨h1, h2⟩ | rfl) | rfl
      · simp only [jsWs, Bool.or_eq_true, Bool.and_eq_true, decide_eq_true_eq] at hw
        omega
      · exact absurd hw (by decide)
      · exact absurd hw (by decide)

theorem valC_ne_minus (c : Char) (h : valC c = true) : c ≠ '-' := by
  rintro rfl
  revert h
  decide

theorem valC_ne_plus (c : Char) (h : valC c = true) : c ≠ '+' := by
  rintro rfl
  revert h
  decide

theorem dropWhile_eq_self_of_not (p : Char → Bool) (l : List Char)
    (h : ∀ ch ∈ l, p ch = false) : l.dropWhile p = l := by
  cases l with
  | nil => rfl
  | cons a t => simp [List.dropWhile_cons, h a (List.mem_cons_self a t)]

theorem takeWhile_eq_self_of_all (p : Char → Bool) (l : List Char)
    (h : ∀ ch ∈ l, p ch = true) : l.takeWhile p = l := by
  induction l with
  | nil => rfl
  | cons a t ih =>
      simp [List.takeWhile_cons, h a (List.mem_cons_self a t),
        ih (fun ch hch => h ch (List.mem_cons_of_mem a hch))]

theorem takeWhile_all_append (p : Char → Bool) (a : List Char) (x : Char)
    (b : List Char) (ha : ∀ ch ∈ a, p ch = true) (hx : p x = false) :
    (a ++ x :: b).takeWhile p = a := by
  induction a with
  | nil => simp [List.takeWhile_cons, hx]
  | cons c t ih =>
      simp [List.takeWhile_cons, ha c (List.mem_cons_self c t),
        ih (fun ch hch => ha ch (List.mem_cons_of_mem c hch))]

theorem parseDecCore_nonneg (l : List Char) (q : ℚ) (h : parseDecCore l = some q) :
    0 ≤ q := by
  simp only [parseDecCore] at h
  split at h
  · split at h
    · exact Option.noConfusion h
    · obtain rfl := Option.some.inj h
      positivity
  · split at h
    · exact Option.noConfusion h
    · obtain rfl := Option.some.inj h
      positivity

theorem jsParseFloat_nonneg_of_valC (l : List Char) (hall : ∀ ch ∈ l, valC ch = true)
    (q : ℚ) (h : jsParseFloat l = JsNum.num q) : 0 ≤ q := by
  have hd : l.dropWhile jsWs = l :=
    dropWhile_eq_self_of_not _ _ (fun ch hch => valC_not_ws ch (hall ch hch))
  rw [jsParseFloat] at h
  split at h
  · exact JsNum.noConfusion h
  · rename_i c rest heq
    rw [hd] at heq
    subst heq
    have hval := hall c (List.mem_cons_self c rest)
    rw [if_neg (valC_ne_minus c hval), if_neg (valC_ne_plus c hval)] at h
    split at h
    · rename_i q0 heq2
      rw [JsNum.num.inj h] at heq2
      exact parseDecCore_nonneg _ _ heq2
    · exact JsNum.noConfusion h

theorem mem_replaceFirstComma (l : List Char) (ch : Char)
    (h : ch ∈ replaceFirstComma l) : ch = '.' ∨ ch ∈ l := by
  induction l with
  | nil => simp [replaceFirstComma] at h
  | cons c t ih =>
      simp only [replaceFirstComma] at h
      by_cases hc : c = ','
      · rw [if_pos hc] at h
        rcases List.mem_cons.mp h with rfl | h
        · exact Or.inl rfl
        · exact Or.inr (List.mem_cons_of_mem _ h)
      · rw [if_neg hc] at h
        rcases List.mem_cons.mp h with rfl | h
        · exact Or.inr (List.mem_cons_self _ _)
        · rcases ih h with h1 | h1
          · exact Or.inl h1
          · exact Or.inr (List.mem_cons_of_mem _ h1)

theorem parsePt_nonneg_of_valC (g : List Char) (hall : AllClass valC g) (q : ℚ)
    (h : parsePtDecimal (String.mk g) = JsNum.num q) : 0 ≤ q := by
  have hT : ∀ ch ∈ replaceFirstComma (removeDots g), valC ch = true := by
    intro ch hch
    rcases mem_replaceFirstComma _ ch hch with rfl | hch2
    · decide
    · exact hall ch ((List.mem_filter.mp hch2).1)
  exact jsParseFloat_nonneg_of_valC _ hT q h

theorem jsParseFloat_of_numShape (a : List Char) (h : NumShape a) :
    ∃ q, jsParseFloat a = JsNum.num q ∧ 0 ≤ q := by
  obtain ⟨d1, d2, rfl, hne1, hne2, hd1, hd2⟩ := h
  cases d1 with
  | nil => exact absurd rfl hne1
  | cons c d1t =>
      have hdigc : digC c = true := hd1 c (List.mem_cons_self _ _)
      have hvalc : ∀ ch ∈ (c :: d1t) ++ '.' :: d2, jsWs ch = false := by
        intro ch hch
        rcases List.mem_append.mp hch with h1 | h2
        · exact valC_not_ws ch (by simp [valC, hd1 ch h1])
        · rcases List.mem_cons.mp h2 with rfl | h3
          · decide
          · exact valC_not_ws ch (by simp [valC, hd2 ch h3])
      have hvalcN : ∀ ch ∈ c :: (d1t ++ '.' :: d2), jsWs ch = false := by
        rw [← List.cons_append]
        exact hvalc
      have hdropN : (c :: (d1t ++ '.' :: d2)).dropWhile jsWs = c :: (d1t ++ '.' :: d2) :=
        dropWhile_eq_self_of_not _ _ hvalcN
      have hm : c ≠ '-' := by
        intro hc
        rw [hc] at hdigc
        exact absurd hdigc (by decide)
      have hp : c ≠ '+' := by
        intro hc
        rw [hc] at hdigc
        exact absurd hdigc (by decide)
      have htake : (c :: (d1t ++ '.' :: d2)).takeWhile digC = c :: d1t := by
        have := takeWhile_all_append digC (c :: d1t) '.' d2 hd1 (by decide)
        rwa [List.cons_append] at this
      have hdropLen : (c :: (d1t ++ '.' :: d2)).drop (c :: d1t).length = '.' :: d2 := by
        have := List.drop_left (c :: d1t) ('.' :: d2)
        rwa [List.cons_append] at this
      have hcore : parseDecCore (c :: (d1t ++ '.' :: d2)) =
          some ((digitsToNat (c :: d1t) : ℚ) +
            (digitsToNat d2 : ℚ) / (10 : ℚ) ^ d2.length) := by
        rw [parseDecCore]
        simp only [htake, hdropLen, List.head?_cons, Option.some.injEq,
          eq_self_iff_true, if_true, List.drop_succ_cons, List.drop_zero,
          takeWhile_eq_self_of_all digC d2 hd2, List.isEmpty_cons, Bool.false_and,
          Bool.false_eq_true, if_false]
      refine ⟨(digitsToNat (c :: d1t) : ℚ) + (digitsToNat d2 : ℚ) / (10 : ℚ) ^ d2.length,
        ?_, by positivity⟩
      rw [show ((c :: d1t) ++ '.' :: d2 : List Char) = c :: (d1t ++ '.' :: d2) from
        List.cons_append c d1t _]
      simp only [jsParseFloat, hdropN, if_neg hm, if_neg hp, hcore]

theorem mkFull_good (g1 g2 g3 g4 g5 g6 g7 : List Char) (hq : NumShape g2)
    (hc : AllClass valC g3) (he : AllClass valC g7) :
    GoodItem (mkFull [g1, g2, g3, g4, g5, g6, g7]) := by
  obtain ⟨q, hq1, hq2⟩ := jsParseFloat_of_numShape g2 hq
  exact ⟨⟨q, hq1, hq2⟩,
    fun q0 h0 => parsePt_nonneg_of_valC g7 he q0 h0,
    fun q0 h0 => parsePt_nonneg_of_valC g3 hc q0 h0⟩

theorem mkFullChnm_good (g1 g2 g3 g4 g5 g6 g7 g8 : List Char) (hq : NumShape g2)
    (hc : AllClass valC g3) (he : AllClass valC g8) :
    GoodItem (mkFullChnm [g1, g2, g3, g4, g5, g6, g7, g8]) := by
  obtain ⟨q, hq1, hq2⟩ := jsParseFloat_of_numShape g2 hq
  exact ⟨⟨q, hq1, hq2⟩,
    fun q0 h0 => parsePt_nonneg_of_valC g8 he q0 h0,
    fun q0 h0 => parsePt_nonneg_of_valC g3 hc q0 h0⟩

theorem mkData_good (buf : List String) (g1 g2 g3 g4 g5 g6 : List Char)
    (hq : NumShape g1) (hc : AllClass valC g2) (he : AllClass valC g6) :
    GoodItem (mkData buf [g1, g2, g3, g4, g5, g6]) := by
  obtain ⟨q, hq1, hq2⟩ := jsParseFloat_of_numShape g1 hq
  exact ⟨⟨q, hq1, hq2⟩,
    fun q0 h0 => parsePt_nonneg_of_valC g6 he q0 h0,
    fun q0 h0 => parsePt_nonneg_of_valC g2 hc q0 h0⟩

theorem mkDataChnm_good (buf : List String) (g1 g2 g3 g4 g5 g6 g7 : List Char)
    (hq : NumShape g1) (hc : AllClass valC g2) (he : AllClass valC g7) :
    GoodItem (mkDataChnm buf [g1, g2, g3, g4, g5, g6, g7]) := by
  obtain ⟨q, hq1, hq2⟩ := jsParseFloat_of_numShape g1 hq
  exact ⟨⟨q, hq1, hq2⟩,
    fun q0 h0 => parsePt_nonneg_of_valC g7 he q0 h0,
    fun q0 h0 => parsePt_nonneg_of_valC g2 hc q0 h0⟩

theorem parseCUFStep_items (st : List InvoiceItem × List String) (raw : String) :
    (parseCUFStep st raw).1 = st.1 ∨
    ∃ it, (parseCUFStep st raw).1 = st.1 ++ [it] ∧ GoodItem it := by
  simp only [parseCUFStep]
  by_cases hline : jsTrim raw = ""
  · rw [if_pos hline]
    exact Or.inl rfl
  rw [if_neg hline]
  cases hm1 : FULL_CHNM_match (jsTrim raw).toList with
  | some caps =>
      obtain ⟨g1, g2, g3, g4, g5, g6, g7, g8, hcaps, hnum, hcv, hev⟩ :=
        FULL_CHNM_match_sound _ _ hm1
      subst hcaps
      exact Or.inr ⟨_, rfl, mkFullChnm_good g1 g2 g3 g4 g5 g6 g7 g8 hnum hcv hev⟩
  | none =>
  cases hm2 : FULL_match (jsTrim raw).toList with
  | some caps =>
      obtain ⟨g1, g2, g3, g4, g5, g6, g7, hcaps, hnum, hcv, hev⟩ :=
        FULL_match_sound _ _ hm2
      subst hcaps
      exact Or.inr ⟨_, rfl, mkFull_good g1 g2 g3 g4 g5 g6 g7 hnum hcv hev⟩
  | none =>
  cases hm3 : DATA_CHNM_match (jsTrim raw).toList with
  | some caps =>
      obtain ⟨g1, g2, g3, g4, g5, g6, g7, hcaps, hnum, hcv, hev⟩ :=
        DATA_CHNM_match_sound _ _ hm3
      subst hcaps
      exact Or.inr ⟨_, rfl, mkDataChnm_good st.2 g1 g2 g3 g4 g5 g6 g7 hnum hcv hev⟩
  | none =>
  cases hm4 : DATA_match (jsTrim raw).toList with
  | some caps =>
      obtain ⟨g1, g2, g3, g4, g5, g6, hcaps, hnum, hcv, hev⟩ :=
        DATA_match_sound _ _ hm4
      subst hcaps
      exact Or.inr ⟨_, rfl, mkData_good st.2 g1 g2 g3 g4 g5 g6 hnum hcv hev⟩
  | none =>
      left
      show (if skipTest (jsTrim raw) = true then (st.1, ([] : List String))
        else if sectionTest (jsTrim raw) = true then (st.1, [])
        else (st.1, st.2 ++ [jsTrim raw])).1 = st.1
      split
      · rfl
      · split
        · rfl
        · rfl

theorem parseCUF_all_good (text : String) (it : InvoiceItem)
    (h : it ∈ parseCUF text) : GoodItem it := by
  suffices H : ∀ (lines : List String) (st : List InvoiceItem × List String),
      (∀ x ∈ st.1, GoodItem x) → ∀ x ∈ (lines.foldl parseCUFStep st).1, GoodItem x by
    exact H ((splitOnNl text.toList).map String.mk) ([], []) (by simp) it h
  intro lines
  induction lines with
  | nil => exact fun st hst x hx => hst x hx
  | cons l rest ih =>
      intro st hst x hx
      refine ih (parseCUFStep st l) ?_ x hx
      intro y hy
      rcases parseCUFStep_items st l with he | ⟨it0, he, hg⟩
      · rw [he] at hy
        exact hst y hy
      · rw [he] at hy
        rcases List.mem_append.mp hy with hy1 | hy2
        · exact hst y hy1
        · rw [List.mem_singleton.mp hy2]
          exact hg

/-- C5 (counterexample). A line whose clientValue token is `",."` —
matched by the `[\d.,]+` group — parses through `parsePtDecimal` to NaN,
and `parseCUF` pushes the item anyway: the NaN propagates into the
produced item instead of the line being treated as non-matching. -/
theorem parseCUF_propagates_nan :
    (parseCUF "x 1.0 ,. 01/02/2023 1,00 123 1,00").map InvoiceItem.clientValue =
      [JsNum.nan] := by
  decide

/-- C5 (amended). Only the quantity is guaranteed numeric: its captured
group has the shape `\d+\.\d+`, which always parses, so no item of
`parseCUF` carries NaN in `qty`. The monetary groups are matched by
`[\d.,]+`, which admits separator-only tokens whose parse is NaN, and
such lines are not treated as non-matching — the NaN is stored in the
item (see the counterexample). -/
theorem parseCUF_qty_numeric (text : String) (it : InvoiceItem)
    (h : it ∈ parseCUF text) : ∃ q, it.qty = JsNum.num q := by
  obtain ⟨⟨q, hq, _⟩, _, _⟩ := parseCUF_all_good text it h
  exact ⟨q, hq⟩

theorem parseCUF_qty_numeric_witness : ∃ q, itW.qty = JsNum.num q :=
  parseCUF_qty_numeric tW itW (List.Mem.head _)

/-- C8 (counterexample). The quantity pattern `\d+\.\d+` accepts
`"0.0"`, so `parseCUF` can produce an item with `qty = 0`, refuting the
claimed invariant `qty > 0`. -/
theorem parseCUF_qty_zero_possible :
    (parseCUF "x 0.0 1,00 01/02/2023 1,00 123 1,00").map InvoiceItem.qty =
      [JsNum.num 0] ∧ ¬ ((0 : ℚ) > 0) := by
  constructor
  · have h : (parseCUF "x 0.0 1,00 01/02/2023 1,00 123 1,00").map InvoiceItem.qty =
        [JsNum.num (((0 : ℕ) : ℚ) + ((0 : ℕ) : ℚ) / (10 : ℚ) ^ (1 : ℕ))] := rfl
    rw [h]
    norm_num
  · norm_num

/-- C8 (amended). Every item produced by the CUF grammar satisfies
`qty ≥ 0` (the quantity group always parses to a non-negative number —
but zero is possible, so `qty > 0` fails), and `efrValue` and
`clientValue` are non-negative whenever they are numeric (their groups
contain no sign, though separator-only tokens parse to NaN). -/
theorem parseCUF_item_bounds (text : String) (it : InvoiceItem)
    (h : it ∈ parseCUF text) :
    (∃ q, it.qty = JsNum.num q ∧ 0 ≤ q) ∧
    (∀ q, it.efrValue = JsNum.num q → 0 ≤ q) ∧
    (∀ q, it.clientValue = JsNum.num q → 0 ≤ q) :=
  parseCUF_all_good text it h

theorem parseCUF_item_bounds_witness :
    (∃ q, itW.qty = JsNum.num q ∧ 0 ≤ q) ∧
    (∀ q, itW.efrValue = JsNum.num q → 0 ≤ q) ∧
    (∀ q, itW.clientValue = JsNum.num q → 0 ≤ q) :=
  parseCUF_item_bounds tW itW (List.Mem.head _)
